import Mathlib

/-!
Shallow embedding of the core of the segmented-transcription pipeline
(recursive size-bounded splitter, batch transcription scheduler, overlap
stitcher, retry state machine) together with proofs of its specified
properties.  Every definition mirrors the corresponding function of the
source; numeric values that the source computes with JavaScript numbers
are modelled with exact rationals, and string primitives of the host
language (`trim`, `toLowerCase`, `split(/\s+/)`) are modelled on
character lists so that they evaluate by kernel reduction.
-/

attribute [local semireducible] Rat.mul Rat.add Rat.sub Rat.inv Rat.ofScientific

namespace Transcriber

/-! ## Overlap Stitcher -/

/-- Model of the JavaScript `String.prototype.trim`: drop whitespace from
both ends of the character list. -/
def jsTrim (s : String) : String :=
  String.mk (((s.data.dropWhile Char.isWhitespace).reverse.dropWhile
    Char.isWhitespace).reverse)

/-- Model of `String.prototype.toLowerCase`, restricted to the ASCII case
mapping (the Unicode tables of the host are irrelevant to the claims). -/
def jsToLower (s : String) : String :=
  String.mk (s.data.map Char.toLower)

/-- One row step of the Levenshtein recurrence: given `f = lev as` (the
distances from the tail `as`), compute `lev (a :: as)`.  The currying
makes the recursion structural in both lists. -/
def levCons (a : Char) (f : List Char → ℕ) : List Char → ℕ
  | [] => f [] + 1
  | b :: bs =>
    if a = b then f bs
    else 1 + min (f (b :: bs)) (min (levCons a f bs) (f bs))

/-- Levenshtein distance on character lists, consuming characters from
the head.  `levRec (a :: as) [] = levRec as [] + 1 = as.length + 1`, and
`levRec (a :: as) (b :: bs)` is `levRec as bs` when `a = b`, else
`1 + min (levRec as (b :: bs)) (min (levRec (a :: as) bs) (levRec as bs))`. -/
def levRec : List Char → List Char → ℕ
  | [], bs => bs.length
  | a :: as, bs => levCons a (levRec as) bs

/-- Model of `levenshteinDistance(a, b)`.  The source fills a DP table
`dp[i][j]` over prefixes with `dp[i][0] = i`, `dp[0][j] = j` and
`dp[i][j] = if a[i-1] = b[j-1] then dp[i-1][j-1] else
1 + min(dp[i-1][j], dp[i][j-1], dp[i-1][j-1])`; `dp[i][j]` equals
`levRec` applied to the reversed `i`- and `j`-prefixes (the head of a
reversed prefix is the last character of the prefix, and the three
recursive calls line up with the three table entries), so `dp[m][n]` is
`levRec` of the two reversed full strings. -/
def levenshteinDistance (a b : String) : ℕ :=
  levRec a.data.reverse b.data.reverse

/-- Model of `similarityScore(a, b) = maxLen === 0 ? 1 : 1 - distance / maxLen`. -/
def similarityScore (a b : String) : ℚ :=
  let distance : ℚ := levenshteinDistance a b
  let maxLen : ℕ := max a.length b.length
  if maxLen = 0 then 1 else 1 - distance / (maxLen : ℚ)

/-- Model of one loop body of `findBestOverlap`: score of candidate `c`,
comparing the last `c` words of `prevWords` (`prevWords.slice(-c)`, which
for the range `1 ≤ c ≤ prevWords.length` the loop restricts `c` to equals
dropping `length - c` elements) against the first `c` words of
`currWords`, joined with single spaces and lower-cased. -/
def candidateScore (prevWords currWords : List String) (c : ℕ) : ℚ :=
  let prevOverlap := String.intercalate " " (prevWords.drop (prevWords.length - c))
  let currOverlap := String.intercalate " " (currWords.take c)
  similarityScore (jsToLower prevOverlap) (jsToLower currOverlap)

/-- Loop of `findBestOverlap`, counted down by the number `iters` of
remaining loop iterations (`iters = maxOverlap + 1 - candidate`, so the
loop condition `candidate <= maxOverlap` becomes `iters > 0`): break as
soon as `candidate` exceeds either word count, otherwise keep the
candidate whose score strictly exceeds the best so far
(`score > bestScore`) and continue with `candidate + 1`. -/
def findBestOverlapAux (prevWords currWords : List String) :
    ℕ → ℕ → ℕ × ℚ → ℕ × ℚ
  | 0, _, best => best
  | iters + 1, candidate, best =>
    if candidate > prevWords.length ∨ candidate > currWords.length then best
    else
      findBestOverlapAux prevWords currWords iters (candidate + 1)
        (if candidateScore prevWords currWords candidate > best.2 then
          (candidate, candidateScore prevWords currWords candidate)
        else best)

/-- Model of `findBestOverlap(prevWords, currWords, minOverlap, maxOverlap)`:
runs the candidate loop from `minOverlap` to `maxOverlap` inclusive with
initial best `(bestOverlap, bestScore) = (0, 0)`. -/
def findBestOverlap (prevWords currWords : List String)
    (minOverlap maxOverlap : ℕ) : ℕ × ℚ :=
  findBestOverlapAux prevWords currWords (maxOverlap + 1 - minOverlap) minOverlap (0, 0)

/-- Helper for `jsSplitWs`, walking the character list.  The accumulator
is `some acc` while building a word (characters in reverse) and `none`
while inside a separating whitespace run. -/
def splitWsCore : List Char → Option (List Char) → List String
  | [], some acc => [String.mk acc.reverse]
  | [], none => [""]
  | c :: cs, some acc =>
    if c.isWhitespace then String.mk acc.reverse :: splitWsCore cs none
    else splitWsCore cs (some (c :: acc))
  | c :: cs, none =>
    if c.isWhitespace then splitWsCore cs none
    else splitWsCore cs (some [c])

/-- Model of the JavaScript `s.split(/\s+/)`: splits at maximal runs of
whitespace; a leading (resp. trailing) whitespace run contributes an
empty first (resp. last) element, and the empty string yields one empty
element. -/
def jsSplitWs (s : String) : List String :=
  splitWsCore s.data (some [])

/-- Loop of `improvedStitchTranscriptions` over the remaining
transcripts: for each next transcript, compare the last-10-word window
of the accumulated text with the transcript's words, and drop the best
overlap from the front of the transcript when the best score reaches the
0.8 threshold and the overlap is positive, else append it unmodified
(always with a single-space separator).  Logging is a side effect of the
source and is not modelled. -/
def stitchLoop (stitched : String) (rest : List String) : String :=
  match rest with
  | [] => stitched
  | t :: ts =>
    let prevWords := jsSplitWs stitched
    let currWords := jsSplitWs t
    let prevWindow := prevWords.drop (prevWords.length - 10)
    let best := findBestOverlap prevWindow currWords 5 20
    let currAdjusted :=
      if best.2 ≥ (0.8 : ℚ) ∧ best.1 > 0 then
        String.intercalate " " (currWords.drop best.1)
      else t
    stitchLoop (stitched ++ " " ++ currAdjusted) ts

/-- Model of `improvedStitchTranscriptions(transcripts)`: empty input
gives `""`; otherwise start from the first transcript trimmed, fold the
rest through `stitchLoop`, and trim the result. -/
def improvedStitchTranscriptions (transcripts : List String) : String :=
  match transcripts with
  | [] => ""
  | t :: ts => jsTrim (stitchLoop (jsTrim t) ts)

/-! ## Recursive Splitter

An audio chunk is modelled by the span of source time it covers (cuts
are time-exact, so the duration probed for a chunk is the length of its
span, and a recursive cut at local time `t` covers source time
`span.start + t`).  The byte size of a chunk is supplied by an oracle
`sz` on spans, and the success of the duration probe by an oracle
`probeOk` (the source parses `Duration: HH:MM:SS.frac` from the codec
log; a parse failure is `probeOk = false`).  Recursion depth is bounded
by explicit fuel, with `none` for fuel exhaustion; the source recursion
is depth-unbounded, so every result it produces is produced here at some
fuel. -/

/-- Span of source time covered by a chunk, in seconds. -/
structure Span where
  start : ℚ
  stop : ℚ
deriving DecidableEq, Repr

/-- Left cut of an oversized chunk: local `[0, min(D/2 + 3, D)]` where
`D` is the chunk duration, translated by the chunk's source offset. -/
def leftSpan (sp : Span) : Span :=
  ⟨sp.start, sp.start + min ((sp.stop - sp.start) / 2 + 3) (sp.stop - sp.start)⟩

/-- Right cut of an oversized chunk: local `[max(D/2 − 3, 0), D]`
translated by the chunk's source offset. -/
def rightSpan (sp : Span) : Span :=
  ⟨sp.start + max ((sp.stop - sp.start) / 2 - 3) 0, sp.stop⟩

/-- Model of `recursiveSplitBySize`: a chunk whose size is within
`maxBytes` is returned as a single segment; otherwise the duration is
probed (on failure the oversized chunk is returned unsplit, after an
error log not modelled here), the chunk is cut into the two overlapping
halves `leftSpan` and `rightSpan`, both are split recursively, and the
left segments are returned before the right segments. -/
def recursiveSplitBySize (sz : Span → ℚ) (maxBytes : ℚ) (probeOk : Span → Bool) :
    ℕ → Span → Option (List Span)
  | 0, _ => none
  | fuel + 1, sp =>
    if sz sp ≤ maxBytes then some [sp]
    else if probeOk sp = false then some [sp]
    else
      match recursiveSplitBySize sz maxBytes probeOk fuel (leftSpan sp),
            recursiveSplitBySize sz maxBytes probeOk fuel (rightSpan sp) with
      | some leftSegments, some rightSegments => some (leftSegments ++ rightSegments)
      | _, _ => none

/-! ## Batch Transcription Scheduler -/

/-- Model of `SegmentInfo` (the blob URL of the source is UI plumbing
and not modelled). -/
structure SegmentInfo where
  filename : String
  size : ℕ
deriving DecidableEq, Repr

/-- Batch size of the transcription loop (`concurrencyLimit = 10`). -/
def concurrencyLimit : ℕ := 10

/-- Cool-down between consecutive batches, in milliseconds (`60000`). -/
def interBatchDelayMs : ℕ := 60000

/-- The consecutive batches the transcription loop slices the segment
list into: `segments.slice(i, i + concurrencyLimit)` for
`i = 0, 10, 20, …`. -/
def transcriptionBatches {α : Type} : List α → List (List α)
  | [] => []
  | a :: l =>
    (a :: l).take concurrencyLimit :: transcriptionBatches ((a :: l).drop concurrencyLimit)
termination_by l => l.length
decreasing_by simp [concurrencyLimit]; omega

/-- Batch loop of `runTranscriptionStep`: per iteration, transcribe one
batch of at most `concurrencyLimit` segments concurrently (`f` is the
per-segment transcription, applied in input order), push the batch
results onto the transcript list, and, if segments remain
(`i + concurrencyLimit < segments.length`), wait `interBatchDelayMs`
milliseconds.  Returns the transcripts in order together with the list
of delays performed. -/
def transcriptionBatchLoop {α β : Type} (f : α → β) : List α → List β × List ℕ
  | [] => ([], [])
  | a :: l =>
    let batch := (a :: l).take concurrencyLimit
    let rest := (a :: l).drop concurrencyLimit
    let tail := transcriptionBatchLoop f rest
    (batch.map f ++ tail.1, (if rest.isEmpty then [] else [interBatchDelayMs]) ++ tail.2)
termination_by l => l.length
decreasing_by simp [concurrencyLimit]; omega

/-! ## Per-segment transcription -/

/-- Transcription provider selection (`selectedApi`). -/
inductive Provider
  | groq
  | openai
deriving DecidableEq, Repr

/-- Live configuration captured at the moment a segment is dispatched. -/
structure ApiConfig where
  selectedApi : Provider
  groqKey : String
  openaiKey : String
deriving DecidableEq, Repr

/-- Key check of `transcribeSegment`: the guard `!groqKey`
(resp. `!openaiKey`) for the provider captured at dispatch. -/
def keyMissing (cfg : ApiConfig) : Bool :=
  (cfg.selectedApi = Provider.groq ∧ cfg.groqKey = "") ∨
    (cfg.selectedApi = Provider.openai ∧ cfg.openaiKey = "")

/-- Model of `transcribeSegment`: returns the empty string when the
captured provider's key is empty; otherwise first reads the segment file
(`readFile` models `await ffmpeg.readFile(filename)`, which in the
source runs outside both try/catch blocks, so its rejection propagates
unlogged), then performs the provider call on the bytes read (`call`
returns the optional `text` field of the response on success, or the
thrown error), returning `resp?.text || ""` on success and rethrowing
the error after logging it on failure. -/
def transcribeSegment (cfg : ApiConfig) (readFile : Except String (List ℕ))
    (call : List ℕ → Provider → Except String (Option String)) : Except String String :=
  let apiToUse := cfg.selectedApi
  if apiToUse = Provider.groq ∧ cfg.groqKey = "" then Except.ok ""
  else if apiToUse = Provider.openai ∧ cfg.openaiKey = "" then Except.ok ""
  else
    match readFile with
    | Except.error e => Except.error e
    | Except.ok segData =>
      match call segData apiToUse with
      | Except.ok text => Except.ok (text.getD "")
      | Except.error e => Except.error e

/-- Model of `Promise.all` over already-dispatched results: succeeds
with all values in input order, or fails with the first failure. -/
def promiseAll {ε α : Type} : List (Except ε α) → Except ε (List α)
  | [] => Except.ok []
  | x :: xs =>
    match x with
    | Except.error e => Except.error e
    | Except.ok a =>
      match promiseAll xs with
      | Except.error e => Except.error e
      | Except.ok as => Except.ok (a :: as)

/-! ## Pipeline retry state machine -/

/-- Pipeline stage names. -/
inductive StepName
  | setup
  | convert
  | split
  | transcribe
  | summarize
deriving DecidableEq, Repr

/-- Model of `stepIndexMap`. -/
def stepIndexMap : StepName → ℕ
  | StepName.setup => 0
  | StepName.convert => 1
  | StepName.split => 2
  | StepName.transcribe => 3
  | StepName.summarize => 4

/-- Per-stage status values. -/
inductive StepStatus
  | idle
  | loading
  | success
  | error
deriving DecidableEq, Repr

/-- Model of `IntermediateData` (converted audio bytes, checkpointed
segment list, checkpointed per-segment transcripts). -/
structure IntermediateData where
  convertedMp3 : Option (List ℕ) := none
  segments : Option (List SegmentInfo) := none
  transcripts : Option (List String) := none
deriving DecidableEq, Repr

/-- The state the retry entry point reads and writes: per-stage status,
current pipeline step index, checkpointed artifacts, and the transcript
(the empty string is the falsy initial value of `transcriptionResult`). -/
structure PipelineState where
  stepStatus : StepName → StepStatus
  pipelineStep : ℕ
  intermediateData : IntermediateData
  transcriptionResult : String

/-- The continuation `retryStep` dispatches to (the stage functions
themselves perform I/O and are modelled only by which one is invoked and
with which checkpointed argument); `missingPrereq` stands for the error
branch that logs `Cannot …` and marks the stage errored. -/
inductive RetryAction
  | loadFFmpeg
  | runConversionStep
  | runSplittingStep (mp3 : List ℕ)
  | runTranscriptionStep (segments : List SegmentInfo)
  | sendToLLM (transcript : String)
  | missingPrereq (step : StepName)
deriving DecidableEq, Repr

/-- Pointwise update of the status map, as `setStepStatus(prev => ({ ...prev, [step]: status }))`
performs it.  The `updateStepStatus` of the source additionally advances
`pipelineStep` only when the new status is `success`, which never
happens inside `retryStep`'s own branches. -/
def setStatus (st : StepName → StepStatus) (step : StepName) (v : StepStatus) :
    StepName → StepStatus :=
  fun k => if k = step then v else st k

/-- Status reset performed at the top of `retryStep`: every stage whose
index is at least the retried stage's index becomes `idle`. -/
def resetFrom (st : StepName → StepStatus) (step : StepName) : StepName → StepStatus :=
  fun k => if stepIndexMap step ≤ stepIndexMap k then StepStatus.idle else st k

/-- Model of `retryStep`: reset the retried stage and all later stages to
`idle`, set the pipeline step to the retried stage's index, then dispatch:
`split` requires the checkpointed converted audio, `transcribe` requires a
non-empty checkpointed segment list, `summarize` requires a non-empty
transcription result; a missing prerequisite logs an error and marks that
stage errored instead of recomputing it. -/
def retryStep (s : PipelineState) (step : StepName) : PipelineState × RetryAction :=
  let s1 : PipelineState :=
    { s with stepStatus := resetFrom s.stepStatus step, pipelineStep := stepIndexMap step }
  match step with
  | StepName.setup => (s1, RetryAction.loadFFmpeg)
  | StepName.convert => (s1, RetryAction.runConversionStep)
  | StepName.split =>
    match s1.intermediateData.convertedMp3 with
    | some mp3 => (s1, RetryAction.runSplittingStep mp3)
    | none =>
      ({ s1 with stepStatus := setStatus s1.stepStatus StepName.split StepStatus.error },
        RetryAction.missingPrereq StepName.split)
  | StepName.transcribe =>
    match s1.intermediateData.segments with
    | some segs =>
      if segs.length > 0 then (s1, RetryAction.runTranscriptionStep segs)
      else
        ({ s1 with stepStatus := setStatus s1.stepStatus StepName.transcribe StepStatus.error },
          RetryAction.missingPrereq StepName.transcribe)
    | none =>
      ({ s1 with stepStatus := setStatus s1.stepStatus StepName.transcribe StepStatus.error },
        RetryAction.missingPrereq StepName.transcribe)
  | StepName.summarize =>
    if s.transcriptionResult ≠ "" then (s1, RetryAction.sendToLLM s.transcriptionResult)
    else
      ({ s1 with stepStatus := setStatus s1.stepStatus StepName.summarize StepStatus.error },
        RetryAction.missingPrereq StepName.summarize)

/-! ## Splitter coverage invariant -/

/-- Coverage and ordering property of a segment list w.r.t. the span it
was split from: the first segment starts at the span's start, the last
segment stops at the span's stop, every segment lies inside the span,
and consecutive segments are in temporal order with no gap (the next
segment starts no earlier than the previous one and no later than the
previous one's stop). -/
def segsCover (sp : Span) (segs : List Span) : Prop :=
  (∃ s, segs.head? = some s ∧ s.start = sp.start) ∧
  (∃ s, segs.getLast? = some s ∧ s.stop = sp.stop) ∧
  (∀ s ∈ segs, sp.start ≤ s.start ∧ s.start ≤ s.stop ∧ s.stop ≤ sp.stop) ∧
  List.Chain' (fun a b => a.start ≤ b.start ∧ b.start ≤ a.stop) segs

/-- Strengthened induction invariant: coverage plus a bound on where the
last segment can start (a chunk's rightmost descendant never starts
later than 6 seconds before the chunk's stop, unless the chunk is
shorter than that). -/
def splitInvariant (sp : Span) (segs : List Span) : Prop :=
  segsCover sp segs ∧
  ∀ s, segs.getLast? = some s → s.start ≤ max sp.start (sp.stop - 6)

lemma cutArith1 (D : ℚ) (hD : 0 ≤ D) : max (D/2 - 3) 0 ≤ min (D/2 + 3) D := by
  rcases le_total (D/2 - 3) 0 with h | h <;>
    rcases le_total (D/2 + 3) D with h' | h' <;>
    simp [max_def, min_def, *] <;> linarith

lemma cutArith2 (D : ℚ) : min (D/2 + 3) D - 6 ≤ max (D/2 - 3) 0 := by
  rcases le_total (D/2 - 3) 0 with h | h <;>
    rcases le_total (D/2 + 3) D with h' | h' <;>
    simp [max_def, min_def, *] <;> linarith

lemma cutArith3 (D : ℚ) : max (D/2 - 3) 0 ≤ max 0 (D - 6) := by
  rcases le_total (D/2 - 3) 0 with h | h <;>
    rcases le_total (0 : ℚ) (D - 6) with h' | h' <;>
    simp [max_def, min_def, *] <;> linarith

lemma leftSpan_wf {sp : Span} (hwf : sp.start ≤ sp.stop) :
    (leftSpan sp).start ≤ (leftSpan sp).stop := by
  have h3 : (0 : ℚ) ≤ (sp.stop - sp.start)/2 + 3 := by linarith
  have h4 : (0 : ℚ) ≤ sp.stop - sp.start := by linarith
  have := le_min h3 h4
  simp only [leftSpan]
  linarith

lemma rightSpan_wf {sp : Span} (hwf : sp.start ≤ sp.stop) :
    (rightSpan sp).start ≤ (rightSpan sp).stop := by
  have h1 : (sp.stop - sp.start)/2 - 3 ≤ sp.stop - sp.start := by linarith
  have h2 : (0 : ℚ) ≤ sp.stop - sp.start := by linarith
  simp only [rightSpan]
  have := max_le h1 h2
  linarith

lemma splitInvariant_singleton {sp : Span} (hwf : sp.start ≤ sp.stop) :
    splitInvariant sp [sp] := by
  refine ⟨⟨⟨sp, rfl, rfl⟩, ⟨sp, rfl, rfl⟩, ?_, ?_⟩, ?_⟩
  · intro s hs
    simp at hs
    subst hs
    exact ⟨le_refl _, hwf, le_refl _⟩
  · simp
  · intro s hs
    simp at hs
    subst hs
    exact le_max_left _ _

lemma splitInvariant_append {sp : Span} (hwf : sp.start ≤ sp.stop)
    {l r : List Span}
    (hl : splitInvariant (leftSpan sp) l)
    (hr : splitInvariant (rightSpan sp) r) :
    splitInvariant sp (l ++ r) := by
  obtain ⟨⟨⟨hdL, hhdL, hhdLs⟩, ⟨lsL, hlsL, hlsLs⟩, hinL, hchL⟩, hlastL⟩ := hl
  obtain ⟨⟨⟨hdR, hhdR, hhdRs⟩, ⟨lsR, hlsR, hlsRs⟩, hinR, hchR⟩, hlastR⟩ := hr
  have hLne : l ≠ [] := by intro h; subst h; simp at hhdL
  have hRne : r ≠ [] := by intro h; subst h; simp at hhdR
  have hD0 : (0 : ℚ) ≤ sp.stop - sp.start := by linarith
  have hLstart : (leftSpan sp).start = sp.start := rfl
  have hRstop : (rightSpan sp).stop = sp.stop := rfl
  have hLstop : (leftSpan sp).stop
      = sp.start + min ((sp.stop - sp.start)/2 + 3) (sp.stop - sp.start) := rfl
  have hRstart : (rightSpan sp).start
      = sp.start + max ((sp.stop - sp.start)/2 - 3) 0 := rfl
  have hLstop_le : (leftSpan sp).stop ≤ sp.stop := by
    have := min_le_right ((sp.stop - sp.start)/2 + 3) (sp.stop - sp.start)
    rw [hLstop]
    linarith
  have hRstart_ge : sp.start ≤ (rightSpan sp).start := by
    have := le_max_right ((sp.stop - sp.start)/2 - 3) (0 : ℚ)
    rw [hRstart]
    linarith
  -- the junction inequalities
  have hjunc1 : (rightSpan sp).start ≤ (leftSpan sp).stop := by
    have := cutArith1 (sp.stop - sp.start) hD0
    rw [hRstart, hLstop]
    linarith
  have hjunc2 : max (leftSpan sp).start ((leftSpan sp).stop - 6) ≤ (rightSpan sp).start := by
    have h2 := cutArith2 (sp.stop - sp.start)
    apply max_le
    · rw [hLstart]; exact hRstart_ge
    · rw [hLstop, hRstart]; linarith
  have hlastbound : (rightSpan sp).start ≤ max sp.start (sp.stop - 6) := by
    have h3 := cutArith3 (sp.stop - sp.start)
    rcases le_total (0 : ℚ) (sp.stop - sp.start - 6) with h' | h'
    · rw [max_eq_right h'] at h3
      refine le_trans ?_ (le_max_right sp.start (sp.stop - 6))
      rw [hRstart]
      linarith
    · rw [max_eq_left h'] at h3
      refine le_trans ?_ (le_max_left sp.start (sp.stop - 6))
      rw [hRstart]
      linarith
  refine ⟨⟨?_, ?_, ?_, ?_⟩, ?_⟩
  · -- head of l ++ r is head of l
    refine ⟨hdL, ?_, hhdLs.trans hLstart⟩
    cases l with
    | nil => exact absurd rfl hLne
    | cons a t => simp at hhdL ⊢; exact hhdL
  · -- last of l ++ r is last of r
    refine ⟨lsR, ?_, hlsRs.trans hRstop⟩
    rw [List.getLast?_append_of_ne_nil l hRne]
    exact hlsR
  · -- every segment lies in sp
    intro s hs
    rcases List.mem_append.mp hs with hsl | hsr
    · obtain ⟨h1, h2, h3⟩ := hinL s hsl
      exact ⟨hLstart ▸ h1, h2, h3.trans hLstop_le⟩
    · obtain ⟨h1, h2, h3⟩ := hinR s hsr
      exact ⟨hRstart_ge.trans h1, h2, h3.trans_eq hRstop⟩
  · -- chain across the junction
    apply List.Chain'.append hchL hchR
    intro x hx y hy
    rw [hlsL] at hx
    rw [hhdR] at hy
    cases hx
    cases hy
    constructor
    · -- lsL.start ≤ hdR.start
      have h1 := hlastL lsL hlsL
      calc lsL.start ≤ max (leftSpan sp).start ((leftSpan sp).stop - 6) := h1
        _ ≤ (rightSpan sp).start := hjunc2
        _ = hdR.start := hhdRs.symm
    · -- hdR.start ≤ lsL.stop
      calc hdR.start = (rightSpan sp).start := hhdRs
        _ ≤ (leftSpan sp).stop := hjunc1
        _ = lsL.stop := hlsLs.symm
  · -- last-start bound
    intro s hs
    rw [List.getLast?_append_of_ne_nil l hRne] at hs
    have h1 := hlastR s hs
    apply le_trans h1
    apply max_le
    · exact hlastbound
    · rw [hRstop]
      exact le_max_right _ _

/-- Every successful split result satisfies the coverage invariant. -/
lemma recursiveSplitBySize_invariant (sz : Span → ℚ) (maxBytes : ℚ)
    (probeOk : Span → Bool) :
    ∀ (fuel : ℕ) (sp : Span) (segs : List Span), sp.start ≤ sp.stop →
      recursiveSplitBySize sz maxBytes probeOk fuel sp = some segs →
      splitInvariant sp segs := by
  intro fuel
  induction fuel with
  | zero => intro sp segs _ heq; simp [recursiveSplitBySize] at heq
  | succ fuel ih =>
    intro sp segs hwf heq
    rw [recursiveSplitBySize] at heq
    by_cases h1 : sz sp ≤ maxBytes
    · simp only [if_pos h1, Option.some.injEq] at heq
      subst heq
      exact splitInvariant_singleton hwf
    · by_cases h2 : probeOk sp = false
      · simp only [if_neg h1, if_pos h2, Option.some.injEq] at heq
        subst heq
        exact splitInvariant_singleton hwf
      · simp only [if_neg h1, if_neg h2] at heq
        cases hL : recursiveSplitBySize sz maxBytes probeOk fuel (leftSpan sp) with
        | none => rw [hL] at heq; cases hR : recursiveSplitBySize sz maxBytes probeOk fuel (rightSpan sp) <;> rw [hR] at heq <;> simp at heq
        | some l =>
          cases hR : recursiveSplitBySize sz maxBytes probeOk fuel (rightSpan sp) with
          | none => rw [hL, hR] at heq; simp at heq
          | some r =>
            rw [hL, hR] at heq
            simp only [Option.some.injEq] at heq
            subst heq
            exact splitInvariant_append hwf
              (ih (leftSpan sp) l (leftSpan_wf hwf) hL)
              (ih (rightSpan sp) r (rightSpan_wf hwf) hR)

/-! ## Claim theorems: Recursive Splitter -/

/-- Size oracle for a scenario in which byte size is proportional to
duration: a chunk covering `len` seconds of an asset of `totalBytes`
bytes and `totalDuration` seconds weighs `totalBytes * len / totalDuration`. -/
def proportionalSize (totalBytes totalDuration : ℚ) : Span → ℚ :=
  fun sp => totalBytes * (sp.stop - sp.start) / totalDuration

/-- Size oracle of one byte per second, used for concrete witnesses. -/
def secondsSize : Span → ℚ :=
  fun sp => sp.stop - sp.start

/-- C1: for an oversized chunk whose duration probes succeed
(probe oracle constantly `true`) and whose cuts are time-exact (the span
semantics of the model), `recursiveSplitBySize` cuts exactly the two
overlapping sub-ranges `leftSpan` (local `[0, min(D/2 + 3, D)]`) and
`rightSpan` (local `[max(D/2 − 3, 0), D]`), recurses on each with the
same `maxBytes`, and returns the left segments concatenated before the
right segments; and every list of segments it returns is in left-to-right
temporal order and covers the chunk's full span with no gaps
(`segsCover`). -/
theorem C1_split_order_and_coverage (sz : Span → ℚ) (maxBytes : ℚ) (fuel : ℕ)
    (sp : Span) (hwf : sp.start ≤ sp.stop) (hbig : maxBytes < sz sp) :
    (recursiveSplitBySize sz maxBytes (fun _ => true) (fuel + 1) sp =
      match recursiveSplitBySize sz maxBytes (fun _ => true) fuel (leftSpan sp),
            recursiveSplitBySize sz maxBytes (fun _ => true) fuel (rightSpan sp) with
      | some leftSegments, some rightSegments => some (leftSegments ++ rightSegments)
      | _, _ => none) ∧
    ∀ segs, recursiveSplitBySize sz maxBytes (fun _ => true) (fuel + 1) sp = some segs →
      segsCover sp segs := by
  constructor
  · rw [recursiveSplitBySize]
    simp [not_le.mpr hbig]
  · intro segs heq
    exact (recursiveSplitBySize_invariant sz maxBytes (fun _ => true) (fuel + 1) sp segs
      hwf heq).1

/-- Witness for C1 at a concrete input: one byte per second, limit 100
bytes, a 300-second asset, fuel 3. -/
theorem C1_witness :
    ((0 : ℚ) ≤ 300 ∧ (100 : ℚ) < secondsSize ⟨0, 300⟩) ∧
    ((recursiveSplitBySize secondsSize 100 (fun _ => true) 3 ⟨0, 300⟩ =
      match recursiveSplitBySize secondsSize 100 (fun _ => true) 2 (leftSpan ⟨0, 300⟩),
            recursiveSplitBySize secondsSize 100 (fun _ => true) 2 (rightSpan ⟨0, 300⟩) with
      | some leftSegments, some rightSegments => some (leftSegments ++ rightSegments)
      | _, _ => none) ∧
    ∀ segs, recursiveSplitBySize secondsSize 100 (fun _ => true) 3 ⟨0, 300⟩ = some segs →
      segsCover (⟨0, 300⟩ : Span) segs) :=
  ⟨⟨by decide, by decide⟩,
    C1_split_order_and_coverage secondsSize 100 2 ⟨0, 300⟩ (by decide) (by decide)⟩

/-- C6: audio whose size is within `maxBytes` is returned as one segment
spanning the whole audio, for every probe oracle (no probe outcome can
influence the result) and without any recursion (fuel 1 suffices, i.e.
no cut is performed). -/
theorem C6_small_input_single_segment (sz : Span → ℚ) (maxBytes : ℚ)
    (probeOk : Span → Bool) (fuel : ℕ) (sp : Span) (h : sz sp ≤ maxBytes) :
    recursiveSplitBySize sz maxBytes probeOk (fuel + 1) sp = some [sp] := by
  rw [recursiveSplitBySize]
  simp [h]

/-- Witness for C6: a 50-byte asset against a 100-byte limit, with a
probe oracle that always fails (and is never consulted). -/
theorem C6_witness :
    secondsSize ⟨0, 50⟩ ≤ 100 ∧
    recursiveSplitBySize secondsSize 100 (fun _ => false) 1 ⟨0, 50⟩ =
      some [⟨0, 50⟩] :=
  ⟨by decide, C6_small_input_single_segment secondsSize 100 (fun _ => false) 0 ⟨0, 50⟩
    (by decide)⟩

/-- C7: an oversized chunk whose duration probe fails is returned as a
single unsplit segment (a `some` result: the stage does not fail), and
that segment's size still exceeds `maxBytes`.  The error log emitted on
this path is a side effect not modelled. -/
theorem C7_probe_failure_degrades (sz : Span → ℚ) (maxBytes : ℚ)
    (probeOk : Span → Bool) (fuel : ℕ) (sp : Span)
    (hbig : maxBytes < sz sp) (hprobe : probeOk sp = false) :
    recursiveSplitBySize sz maxBytes probeOk (fuel + 1) sp = some [sp] ∧
      maxBytes < sz sp := by
  refine ⟨?_, hbig⟩
  rw [recursiveSplitBySize]
  simp [not_le.mpr hbig, hprobe]

/-- Witness for C7: a 300-byte asset against a 100-byte limit whose probe
fails. -/
theorem C7_witness :
    ((100 : ℚ) < secondsSize ⟨0, 300⟩ ∧ (fun _ : Span => false) ⟨0, 300⟩ = false) ∧
    (recursiveSplitBySize secondsSize 100 (fun _ => false) 5 ⟨0, 300⟩ =
        some [⟨0, 300⟩] ∧
      (100 : ℚ) < secondsSize ⟨0, 300⟩) :=
  ⟨⟨by decide, rfl⟩,
    C7_probe_failure_degrades secondsSize 100 (fun _ => false) 4 ⟨0, 300⟩ (by decide) rfl⟩

/-- C5 fails on the code: with `maxBytes = 1,000,000`, a 3,500,000-byte,
600-second asset (size proportional to duration, time-exact cuts) the
splitter does recurse to depth 2 and produce 4 segments, but their spans
are `[0, 154.5]`, `[148.5, 303]`, `[297, 451.5]`, `[445.5, 600]` — the
first-level cuts are `[0, 303]` and `[297, 600]`, so the second-level
midpoints are `151.5`, not `150` as the claimed spans `[0,153]`,
`[147,300]`, `[300,453]`, `[447,600]` would require. -/
theorem C5_counterexample :
    recursiveSplitBySize (proportionalSize 3500000 600) 1000000 (fun _ => true) 3
        ⟨0, 600⟩ =
      some [⟨0, 309/2⟩, ⟨297/2, 303⟩, ⟨297, 903/2⟩, ⟨891/2, 600⟩] ∧
    recursiveSplitBySize (proportionalSize 3500000 600) 1000000 (fun _ => true) 3
        ⟨0, 600⟩ ≠
      some [⟨0, 153⟩, ⟨147, 300⟩, ⟨300, 453⟩, ⟨447, 600⟩] := by
  constructor
  · decide
  · decide

/-- C5 as amended: the same scenario recurses to depth exactly 2 (fuel 2,
allowing the root and one level of recursion, is exhausted; fuel 3
succeeds) and produces exactly 4 segments with spans `[0, 154.5]`,
`[148.5, 303]`, `[297, 451.5]`, `[445.5, 600]` — each interior junction
overlapping by 6 seconds, the cut extending 3 seconds to each side of
the midpoint. -/
theorem C5_amended_scenario :
    recursiveSplitBySize (proportionalSize 3500000 600) 1000000 (fun _ => true) 2
        ⟨0, 600⟩ = none ∧
    recursiveSplitBySize (proportionalSize 3500000 600) 1000000 (fun _ => true) 3
        ⟨0, 600⟩ =
      some [⟨0, 309/2⟩, ⟨297/2, 303⟩, ⟨297, 903/2⟩, ⟨891/2, 600⟩] := by
  constructor
  · decide
  · decide

/-! ## Claim theorems: Batch Transcription Scheduler -/

lemma transcriptionBatchLoop_fst {α β : Type} (f : α → β) :
    ∀ (n : ℕ) (l : List α), l.length ≤ n →
      (transcriptionBatchLoop f l).1 = l.map f := by
  intro n
  induction n with
  | zero =>
    intro l h
    have : l = [] := List.eq_nil_of_length_eq_zero (Nat.le_zero.mp h)
    subst this
    simp [transcriptionBatchLoop]
  | succ n ih =>
    intro l h
    cases l with
    | nil => simp [transcriptionBatchLoop]
    | cons a t =>
      rw [transcriptionBatchLoop]
      have hlen : ((a :: t).drop concurrencyLimit).length ≤ n := by
        simp only [List.length_drop, List.length_cons, concurrencyLimit]
        simp only [List.length_cons] at h
        omega
      simp only [ih _ hlen]
      rw [← List.map_append, List.take_append_drop]

lemma transcriptionBatchLoop_snd {α β : Type} (f : α → β) :
    ∀ (n : ℕ) (l : List α), l.length ≤ n → l ≠ [] →
      (transcriptionBatchLoop f l).2 =
        List.replicate ((l.length + 9) / 10 - 1) interBatchDelayMs := by
  intro n
  induction n with
  | zero =>
    intro l h hne
    exact absurd (List.eq_nil_of_length_eq_zero (Nat.le_zero.mp h)) hne
  | succ n ih =>
    intro l h hne
    cases l with
    | nil => exact absurd rfl hne
    | cons a t =>
      rw [transcriptionBatchLoop]
      cases hdrop : (a :: t).drop concurrencyLimit with
      | nil =>
        have hlen : (a :: t).length ≤ 10 := by
          have := congrArg List.length hdrop
          simp only [List.length_drop, List.length_nil, concurrencyLimit] at this
          omega
        have h0 : (t.length + 1 + 9) / 10 - 1 = 0 := by
          simp only [List.length_cons] at hlen
          omega
        simp [transcriptionBatchLoop, h0]
      | cons b u =>
        have hlens := congrArg List.length hdrop
        simp only [List.length_drop, List.length_cons, concurrencyLimit] at hlens
        have hlen : (b :: u).length ≤ n := by
          simp only [List.length_cons]
          simp only [List.length_cons] at h
          omega
        have hrec := ih _ hlen (by simp : b :: u ≠ [])
        simp only [hrec, List.isEmpty_cons, Bool.false_eq_true, if_false,
          List.singleton_append]
        rw [← List.replicate_succ]
        congr 1
        simp only [List.length_cons] at *
        omega

lemma transcriptionBatches_join {α : Type} :
    ∀ (n : ℕ) (l : List α), l.length ≤ n → (transcriptionBatches l).flatten = l := by
  intro n
  induction n with
  | zero =>
    intro l h
    have : l = [] := List.eq_nil_of_length_eq_zero (Nat.le_zero.mp h)
    subst this
    simp [transcriptionBatches]
  | succ n ih =>
    intro l h
    cases l with
    | nil => simp [transcriptionBatches]
    | cons a t =>
      rw [transcriptionBatches]
      have hlen : ((a :: t).drop concurrencyLimit).length ≤ n := by
        simp only [List.length_drop, List.length_cons, concurrencyLimit]
        simp only [List.length_cons] at h
        omega
      simp only [List.flatten_cons, ih _ hlen]
      exact List.take_append_drop _ _

lemma transcriptionBatches_length_le {α : Type} :
    ∀ (n : ℕ) (l : List α), l.length ≤ n →
      ∀ b ∈ transcriptionBatches l, b.length ≤ concurrencyLimit := by
  intro n
  induction n with
  | zero =>
    intro l h b hb
    have : l = [] := List.eq_nil_of_length_eq_zero (Nat.le_zero.mp h)
    subst this
    simp [transcriptionBatches] at hb
  | succ n ih =>
    intro l h b hb
    cases l with
    | nil => simp [transcriptionBatches] at hb
    | cons a t =>
      rw [transcriptionBatches] at hb
      have hlen : ((a :: t).drop concurrencyLimit).length ≤ n := by
        simp only [List.length_drop, List.length_cons, concurrencyLimit]
        simp only [List.length_cons] at h
        omega
      rcases List.mem_cons.mp hb with hb | hb
      · subst hb
        simp [List.length_take]
      · exact ih _ hlen b hb

/-- C2: the transcription loop partitions the segment list into the
consecutive batches `transcriptionBatches`, each of size at most
`concurrencyLimit = 10` (the only calls in flight at any time are the
ones of the current batch, dispatched together and awaited together, so
at most 10 are ever in flight); the output transcript list is the
per-segment results in input order; and for `N ≥ 1` segments the loop
performs exactly `⌈N/10⌉ − 1 = (N + 9)/10 − 1` delays of
`interBatchDelayMs = 60000` milliseconds, one after each batch except
the last. -/
theorem C2_batch_scheduler {α β : Type} (f : α → β) (segs : List α)
    (hne : segs ≠ []) :
    (transcriptionBatchLoop f segs).1 = segs.map f ∧
    (transcriptionBatchLoop f segs).2 =
      List.replicate ((segs.length + 9) / 10 - 1) interBatchDelayMs ∧
    (∀ b ∈ transcriptionBatches segs, b.length ≤ concurrencyLimit) ∧
    (transcriptionBatches segs).flatten = segs := by
  refine ⟨?_, ?_, ?_, ?_⟩
  · exact transcriptionBatchLoop_fst f segs.length segs (le_refl _)
  · exact transcriptionBatchLoop_snd f segs.length segs (le_refl _) hne
  · exact transcriptionBatches_length_le segs.length segs (le_refl _)
  · exact transcriptionBatches_join segs.length segs (le_refl _)

/-- Witness for C2 on twelve concrete segments: two batches of sizes 10
and 2, transcripts in input order, and exactly one 60-second delay. -/
theorem C2_witness :
    ([0, 1, 2, 3, 4, 5, 6, 7, 8, 9, 10, 11] : List ℕ) ≠ [] ∧
    ((transcriptionBatchLoop (fun n : ℕ => n + 1)
        [0, 1, 2, 3, 4, 5, 6, 7, 8, 9, 10, 11]).1 =
      List.map (fun n : ℕ => n + 1) [0, 1, 2, 3, 4, 5, 6, 7, 8, 9, 10, 11] ∧
    (transcriptionBatchLoop (fun n : ℕ => n + 1)
        [0, 1, 2, 3, 4, 5, 6, 7, 8, 9, 10, 11]).2 =
      List.replicate (([0, 1, 2, 3, 4, 5, 6, 7, 8, 9, 10, 11].length + 9) / 10 - 1)
        interBatchDelayMs ∧
    (∀ b ∈ transcriptionBatches [0, 1, 2, 3, 4, 5, 6, 7, 8, 9, 10, 11],
      b.length ≤ concurrencyLimit) ∧
    (transcriptionBatches [0, 1, 2, 3, 4, 5, 6, 7, 8, 9, 10, 11]).flatten =
      [0, 1, 2, 3, 4, 5, 6, 7, 8, 9, 10, 11]) :=
  ⟨by decide, C2_batch_scheduler (fun n : ℕ => n + 1)
    [0, 1, 2, 3, 4, 5, 6, 7, 8, 9, 10, 11] (by decide)⟩

/-! ## Claim theorems: retry state machine -/

/-- C8: retrying `transcribe` with a non-empty checkpointed segment list
dispatches the transcription step on exactly that stored list (the only
action taken — in particular neither the splitting nor the conversion
step is invoked); and retrying a stage whose prerequisite artifact is
absent (`split` without converted audio, `transcribe` without segments,
`summarize` without a transcript) dispatches no stage function but the
explicit missing-prerequisite error and marks that stage errored. -/
theorem C8_retry_uses_checkpoint :
    (∀ (s : PipelineState) (segs : List SegmentInfo),
        s.intermediateData.segments = some segs → segs ≠ [] →
        retryStep s StepName.transcribe =
          ({ s with stepStatus := resetFrom s.stepStatus StepName.transcribe,
                    pipelineStep := stepIndexMap StepName.transcribe },
            RetryAction.runTranscriptionStep segs)) ∧
    (∀ s : PipelineState, s.intermediateData.convertedMp3 = none →
        (retryStep s StepName.split).2 = RetryAction.missingPrereq StepName.split ∧
        (retryStep s StepName.split).1.stepStatus StepName.split = StepStatus.error) ∧
    (∀ s : PipelineState,
        s.intermediateData.segments = none ∨ s.intermediateData.segments = some [] →
        (retryStep s StepName.transcribe).2 =
            RetryAction.missingPrereq StepName.transcribe ∧
        (retryStep s StepName.transcribe).1.stepStatus StepName.transcribe =
            StepStatus.error) ∧
    (∀ s : PipelineState, s.transcriptionResult = "" →
        (retryStep s StepName.summarize).2 =
            RetryAction.missingPrereq StepName.summarize ∧
        (retryStep s StepName.summarize).1.stepStatus StepName.summarize =
            StepStatus.error) := by
  refine ⟨?_, ?_, ?_, ?_⟩
  · intro s segs hseg hne
    rw [retryStep]
    simp only [hseg]
    rw [if_pos (by cases segs with | nil => exact absurd rfl hne | cons a t => simp)]
  · intro s hmp3
    refine ⟨?_, ?_⟩ <;> simp [retryStep, hmp3, setStatus]
  · intro s hseg
    rcases hseg with hseg | hseg <;>
      · refine ⟨?_, ?_⟩ <;> simp [retryStep, hseg, setStatus]
  · intro s htr
    refine ⟨?_, ?_⟩ <;> simp [retryStep, htr, setStatus]

/-- A concrete pipeline state for the C8 witness: a checkpointed segment
list is present, but no converted audio and no transcript. -/
def witnessState : PipelineState :=
  { stepStatus := fun _ => StepStatus.idle
    pipelineStep := 0
    intermediateData := { convertedMp3 := none
                          segments := some [⟨"segment_0.mp3", 42⟩]
                          transcripts := none }
    transcriptionResult := "" }

/-- Witness for C8 at `witnessState`: the transcribe retry reuses the
stored segment list, and the split and summarize retries (and the
transcribe retry on a state with the segments erased) report missing
prerequisites. -/
theorem C8_witness :
    (retryStep witnessState StepName.transcribe =
      ({ witnessState with
          stepStatus := resetFrom witnessState.stepStatus StepName.transcribe,
          pipelineStep := stepIndexMap StepName.transcribe },
        RetryAction.runTranscriptionStep [⟨"segment_0.mp3", 42⟩])) ∧
    ((retryStep witnessState StepName.split).2 =
        RetryAction.missingPrereq StepName.split ∧
      (retryStep witnessState StepName.split).1.stepStatus StepName.split =
        StepStatus.error) ∧
    ((retryStep witnessState StepName.summarize).2 =
        RetryAction.missingPrereq StepName.summarize ∧
      (retryStep witnessState StepName.summarize).1.stepStatus StepName.summarize =
        StepStatus.error) :=
  ⟨C8_retry_uses_checkpoint.1 witnessState [⟨"segment_0.mp3", 42⟩] rfl (by decide),
    C8_retry_uses_checkpoint.2.1 witnessState rfl,
    C8_retry_uses_checkpoint.2.2.2 witnessState rfl⟩

/-! ## Claim theorems: per-segment transcription -/

/-- C9 fails on the code as stated: with a non-empty key, a rejected
segment-file read (`await ffmpeg.readFile`, which runs outside both
try/catch blocks) also aborts the per-segment transcription — here the
abort error `"readFile rejected"` is returned although the provider call
at this input never errors, so errors thrown by an actual provider call
are not the only aborts. -/
theorem C9_counterexample :
    transcribeSegment ⟨Provider.groq, "sk-key", ""⟩ (Except.error "readFile rejected")
        (fun _ _ => Except.ok (some "text")) = Except.error "readFile rejected" ∧
    ∀ (data : List ℕ) (p : Provider),
      (fun (_ : List ℕ) (_ : Provider) =>
          (Except.ok (some "text") : Except String (Option String))) data p ≠
        Except.error "readFile rejected" := by
  refine ⟨rfl, ?_⟩
  intro data p
  simp

/-- C9 as amended: a segment dispatched while the selected provider's
key is empty yields the empty string as its transcript rather than an
error (the empty-key guard returns before the file read, so even a
failing read cannot abort it); an error result can only come from the
segment-file read (`ffmpeg.readFile`, outside both try/catch blocks) or
from the actual provider call (re-thrown); and a whole batch dispatched
under empty keys resolves successfully to empty transcripts, one per
segment, so the batch and the stage complete without aborting. -/
theorem C9_empty_key_empty_transcript :
    (∀ (cfg : ApiConfig) (readFile : Except String (List ℕ))
        (call : List ℕ → Provider → Except String (Option String)),
        keyMissing cfg = true →
        transcribeSegment cfg readFile call = Except.ok "") ∧
    (∀ (cfg : ApiConfig) (readFile : Except String (List ℕ))
        (call : List ℕ → Provider → Except String (Option String)) (e : String),
        transcribeSegment cfg readFile call = Except.error e →
        keyMissing cfg = false ∧
          (readFile = Except.error e ∨
            ∃ data, readFile = Except.ok data ∧
              call data cfg.selectedApi = Except.error e)) ∧
    (∀ batch : List (ApiConfig × Except String (List ℕ) ×
        (List ℕ → Provider → Except String (Option String))),
        (∀ p ∈ batch, keyMissing p.1 = true) →
        promiseAll (batch.map fun p => transcribeSegment p.1 p.2.1 p.2.2) =
          Except.ok (List.replicate batch.length "")) := by
  have hok : ∀ (cfg : ApiConfig) (readFile : Except String (List ℕ))
      (call : List ℕ → Provider → Except String (Option String)),
      keyMissing cfg = true → transcribeSegment cfg readFile call = Except.ok "" := by
    intro cfg readFile call hkey
    rw [keyMissing] at hkey
    rw [transcribeSegment.eq_def]
    cases hapi : cfg.selectedApi <;> simp [hapi] at hkey <;> simp [hapi, hkey]
  refine ⟨hok, ?_, ?_⟩
  · intro cfg readFile call e herr
    rw [transcribeSegment.eq_def] at herr
    by_cases h1 : cfg.selectedApi = Provider.groq ∧ cfg.groqKey = ""
    · simp [h1] at herr
    · rw [if_neg h1] at herr
      by_cases h2 : cfg.selectedApi = Provider.openai ∧ cfg.openaiKey = ""
      · simp [h2] at herr
      · rw [if_neg h2] at herr
        refine ⟨?_, ?_⟩
        · rw [keyMissing]
          simp only [decide_eq_false_iff_not]
          exact not_or.mpr ⟨h1, h2⟩
        · cases hread : readFile with
          | error efs =>
            rw [hread] at herr
            simp at herr
            subst herr
            exact Or.inl rfl
          | ok segData =>
            rw [hread] at herr
            have herr' : (match call segData cfg.selectedApi with
                | Except.ok text => Except.ok (text.getD "")
                | Except.error e2 => (Except.error e2 : Except String String)) =
                Except.error e := herr
            cases hcall : call segData cfg.selectedApi with
            | ok text => rw [hcall] at herr'; simp at herr'
            | error e' =>
              rw [hcall] at herr'
              simp at herr'
              exact Or.inr ⟨segData, rfl, by rw [hcall, herr']⟩
  · intro batch hkeys
    induction batch with
    | nil => simp [promiseAll]
    | cons p ps ih =>
      have hp := hok p.1 p.2.1 p.2.2 (hkeys p (List.mem_cons_self p ps))
      have hps := ih fun q hq => hkeys q (List.mem_cons_of_mem p hq)
      simp only [List.map_cons, promiseAll, hp, hps, List.length_cons,
        List.replicate_succ]

/-- Witness for C9: a Groq selection with an empty Groq key (whose file
read would even fail) yields the empty transcript; an erroring file read
under a non-empty key is attributed to the read, not the provider; and a
two-segment all-empty-key batch resolves to two empty transcripts. -/
theorem C9_witness :
    (keyMissing ⟨Provider.groq, "", "sk-other"⟩ = true) ∧
    transcribeSegment ⟨Provider.groq, "", "sk-other"⟩
      (Except.error "readFile rejected") (fun _ _ => Except.error "boom") =
        Except.ok "" ∧
    (keyMissing ⟨Provider.groq, "sk-key", ""⟩ = false ∧
      ((Except.error "readFile rejected" : Except String (List ℕ)) =
          Except.error "readFile rejected" ∨
        ∃ data, (Except.error "readFile rejected" : Except String (List ℕ)) =
            Except.ok data ∧
          (fun (_ : List ℕ) (_ : Provider) =>
              (Except.error "boom" : Except String (Option String))) data
            (⟨Provider.groq, "sk-key", ""⟩ : ApiConfig).selectedApi =
            Except.error "readFile rejected")) ∧
    promiseAll
      (([(⟨Provider.groq, "", "sk-other"⟩, Except.error "readFile rejected",
          fun _ _ => Except.error "boom"),
         (⟨Provider.openai, "sk-g", ""⟩, Except.ok [1, 2, 3],
          fun _ _ => Except.error "boom")] :
        List (ApiConfig × Except String (List ℕ) ×
          (List ℕ → Provider → Except String (Option String)))).map
          fun p => transcribeSegment p.1 p.2.1 p.2.2) =
      Except.ok (List.replicate 2 "") :=
  ⟨by decide,
    C9_empty_key_empty_transcript.1 ⟨Provider.groq, "", "sk-other"⟩
      (Except.error "readFile rejected") (fun _ _ => Except.error "boom") (by decide),
    C9_empty_key_empty_transcript.2.1 ⟨Provider.groq, "sk-key", ""⟩
      (Except.error "readFile rejected") (fun _ _ => Except.error "boom")
      "readFile rejected" rfl,
    C9_empty_key_empty_transcript.2.2
      [(⟨Provider.groq, "", "sk-other"⟩, Except.error "readFile rejected",
        fun _ _ => Except.error "boom"),
       (⟨Provider.openai, "sk-g", ""⟩, Except.ok [1, 2, 3],
        fun _ _ => Except.error "boom")]
      (by intro p hp
          rcases List.mem_cons.mp hp with h | h
          · subst h; decide
          · rcases List.mem_cons.mp h with h | h
            · subst h; decide
            · simp at h)⟩

/-! ## Claim theorems: Overlap Stitcher -/

/-- Candidates that the `findBestOverlap` loop actually scores: between
`minOverlap` and `maxOverlap` inclusive and within both word counts (the
loop breaks at the first candidate exceeding either count, and since the
bounds are monotone this break skips exactly the candidates violating
them). -/
def validCandidate (prevWords currWords : List String) (minOverlap maxOverlap c : ℕ) :
    Prop :=
  minOverlap ≤ c ∧ c ≤ maxOverlap ∧ c ≤ prevWords.length ∧ c ≤ currWords.length

instance validCandidate.decidable (prevWords currWords : List String)
    (minOverlap maxOverlap c : ℕ) :
    Decidable (validCandidate prevWords currWords minOverlap maxOverlap c) :=
  inferInstanceAs (Decidable (_ ∧ _ ∧ _ ∧ _))

lemma findBestOverlapAux_spec (pw cw : List String) :
    ∀ (iters c : ℕ) (best : ℕ × ℚ),
      (∀ c', c ≤ c' → c' < c + iters → c' ≤ pw.length → c' ≤ cw.length →
        candidateScore pw cw c' ≤ (findBestOverlapAux pw cw iters c best).2) ∧
      best.2 ≤ (findBestOverlapAux pw cw iters c best).2 ∧
      (findBestOverlapAux pw cw iters c best = best ∨
        (c ≤ (findBestOverlapAux pw cw iters c best).1 ∧
          (findBestOverlapAux pw cw iters c best).1 < c + iters ∧
          (findBestOverlapAux pw cw iters c best).1 ≤ pw.length ∧
          (findBestOverlapAux pw cw iters c best).1 ≤ cw.length ∧
          candidateScore pw cw (findBestOverlapAux pw cw iters c best).1 =
            (findBestOverlapAux pw cw iters c best).2 ∧
          best.2 < (findBestOverlapAux pw cw iters c best).2 ∧
          (∀ c', c ≤ c' → c' < c + iters → c' ≤ pw.length → c' ≤ cw.length →
            c' < (findBestOverlapAux pw cw iters c best).1 →
            candidateScore pw cw c' < (findBestOverlapAux pw cw iters c best).2))) := by
  intro iters
  induction iters with
  | zero =>
    intro c best
    refine ⟨?_, le_refl _, Or.inl rfl⟩
    intro c' h1 h2 _ _
    omega
  | succ n ih =>
    intro c best
    rw [findBestOverlapAux]
    by_cases hbreak : c > pw.length ∨ c > cw.length
    · rw [if_pos hbreak]
      refine ⟨?_, le_refl _, Or.inl rfl⟩
      intro c' h1 h2 h3 h4
      rcases hbreak with h | h <;> omega
    · rw [if_neg hbreak]
      push_neg at hbreak
      obtain ⟨hcp, hcc⟩ := hbreak
      by_cases hupd : candidateScore pw cw c > best.2
      · rw [if_pos hupd]
        obtain ⟨ihA, ihle, ihdisj⟩ := ih (c + 1) (c, candidateScore pw cw c)
        have ihle' : candidateScore pw cw c ≤
            (findBestOverlapAux pw cw n (c + 1) (c, candidateScore pw cw c)).2 := ihle
        refine ⟨?_, le_of_lt (lt_of_lt_of_le hupd ihle'), ?_⟩
        · intro c' h1 h2 h3 h4
          rcases Nat.eq_or_lt_of_le h1 with heq | hlt
          · subst heq
            exact ihle'
          · exact ihA c' hlt (by omega) h3 h4
        · rcases ihdisj with heq | ⟨j1, j2, j3, j4, j5, j6, j7⟩
          · rw [heq]
            refine Or.inr ⟨le_refl c, ?_, hcp, hcc, rfl, hupd, ?_⟩
            · show c < c + (n + 1)
              omega
            · intro c' h1 h2 h3 h4 h5
              have h5' : c' < c := h5
              omega
          · have j6' : candidateScore pw cw c <
                (findBestOverlapAux pw cw n (c + 1) (c, candidateScore pw cw c)).2 := j6
            refine Or.inr ⟨by omega, by omega, j3, j4, j5, lt_trans hupd j6', ?_⟩
            intro c' h1 h2 h3 h4 h5
            rcases Nat.eq_or_lt_of_le h1 with heq | hlt
            · subst heq
              exact j6'
            · exact j7 c' hlt (by omega) h3 h4 h5
      · rw [if_neg hupd]
        have hscore : candidateScore pw cw c ≤ best.2 := le_of_not_lt hupd
        obtain ⟨ihA, ihle, ihdisj⟩ := ih (c + 1) best
        refine ⟨?_, ihle, ?_⟩
        · intro c' h1 h2 h3 h4
          rcases Nat.eq_or_lt_of_le h1 with heq | hlt
          · subst heq
            exact le_trans hscore ihle
          · exact ihA c' hlt (by omega) h3 h4
        · rcases ihdisj with heq | ⟨j1, j2, j3, j4, j5, j6, j7⟩
          · exact Or.inl heq
          · refine Or.inr ⟨by omega, by omega, j3, j4, j5, j6, ?_⟩
            intro c' h1 h2 h3 h4 h5
            rcases Nat.eq_or_lt_of_le h1 with heq | hlt
            · subst heq
              exact lt_of_le_of_lt hscore j6
            · exact j7 c' hlt (by omega) h3 h4 h5

/-- Specification of `findBestOverlap`: the returned score dominates the
score of every candidate the loop considers, and the returned overlap is
either the untouched initial `(0, 0)` (no candidate beat score 0) or the
first candidate attaining the returned score — every valid candidate
strictly below it scores strictly less. -/
lemma findBestOverlap_spec (pw cw : List String) (minOverlap maxOverlap : ℕ) :
    (∀ c, validCandidate pw cw minOverlap maxOverlap c →
      candidateScore pw cw c ≤ (findBestOverlap pw cw minOverlap maxOverlap).2) ∧
    (findBestOverlap pw cw minOverlap maxOverlap = (0, 0) ∨
      (validCandidate pw cw minOverlap maxOverlap
          (findBestOverlap pw cw minOverlap maxOverlap).1 ∧
        candidateScore pw cw (findBestOverlap pw cw minOverlap maxOverlap).1 =
          (findBestOverlap pw cw minOverlap maxOverlap).2 ∧
        ∀ c, validCandidate pw cw minOverlap maxOverlap c →
          c < (findBestOverlap pw cw minOverlap maxOverlap).1 →
          candidateScore pw cw c < (findBestOverlap pw cw minOverlap maxOverlap).2)) := by
  obtain ⟨hA, hle, hdisj⟩ :=
    findBestOverlapAux_spec pw cw (maxOverlap + 1 - minOverlap) minOverlap (0, 0)
  simp only [findBestOverlap]
  constructor
  · intro c hc
    obtain ⟨h1, h2, h3, h4⟩ := hc
    exact hA c h1 (by omega) h3 h4
  · rcases hdisj with heq | ⟨j1, j2, j3, j4, j5, j6, j7⟩
    · exact Or.inl heq
    · refine Or.inr ⟨⟨j1, by omega, j3, j4⟩, j5, ?_⟩
      intro c hc hlt
      obtain ⟨h1, h2, h3, h4⟩ := hc
      exact j7 c h1 (by omega) h3 h4 hlt

/-- C3 fails on the code as stated: with six identical words on both
sides, the candidates 5 and 6 are both valid and both attain the best
score 1, yet `findBestOverlap` returns overlap 5 — the ascending loop
updates only on a strict improvement (`score > bestScore`), so a tie
keeps the earlier, smaller `c`, not the larger one. -/
theorem C3_counterexample :
    candidateScore (List.replicate 6 "a") (List.replicate 6 "a") 5 = 1 ∧
    candidateScore (List.replicate 6 "a") (List.replicate 6 "a") 6 = 1 ∧
    validCandidate (List.replicate 6 "a") (List.replicate 6 "a") 5 20 5 ∧
    validCandidate (List.replicate 6 "a") (List.replicate 6 "a") 5 20 6 ∧
    findBestOverlap (List.replicate 6 "a") (List.replicate 6 "a") 5 20 = (5, 1) := by
  exact ⟨by decide, by decide, by decide, by decide, by decide⟩

/-- C3 as amended: among the candidate overlap lengths `c` (5 ascending
to 20, bounded by the available token counts), the candidate with the
highest similarity score is selected, and when two candidates achieve
the same best score the smaller `c` wins (the first candidate attaining
the best score is kept, since iteration is ascending and strict `>` is
used to update the best); when no candidate scores above 0 the result is
the initial `(0, 0)`. -/
theorem C3_best_overlap_argmax (pw cw : List String) :
    (∀ c, validCandidate pw cw 5 20 c →
      candidateScore pw cw c ≤ (findBestOverlap pw cw 5 20).2) ∧
    (findBestOverlap pw cw 5 20 = (0, 0) ∨
      (validCandidate pw cw 5 20 (findBestOverlap pw cw 5 20).1 ∧
        candidateScore pw cw (findBestOverlap pw cw 5 20).1 =
          (findBestOverlap pw cw 5 20).2 ∧
        ∀ c, validCandidate pw cw 5 20 c → c < (findBestOverlap pw cw 5 20).1 →
          candidateScore pw cw c < (findBestOverlap pw cw 5 20).2)) :=
  findBestOverlap_spec pw cw 5 20

/-- C10: one stitching junction never selects an overlap larger than 10
words — the trailing window passed to `findBestOverlap` is capped at the
last 10 words of the accumulated result, candidates exceeding the window
(or the piece) are skipped by the break, and hence the selected
`overlapCount` is at most `min(10, words of accumulated result, words of
piece)` even though candidates nominally range up to 20. -/
theorem C10_overlap_at_most_ten (stitched t : String) :
    (findBestOverlap ((jsSplitWs stitched).drop ((jsSplitWs stitched).length - 10))
        (jsSplitWs t) 5 20).1 ≤
      min 10 (min (jsSplitWs stitched).length (jsSplitWs t).length) := by
  obtain ⟨-, hdisj⟩ :=
    findBestOverlap_spec ((jsSplitWs stitched).drop ((jsSplitWs stitched).length - 10))
      (jsSplitWs t) 5 20
  have hwin : ((jsSplitWs stitched).drop ((jsSplitWs stitched).length - 10)).length =
      (jsSplitWs stitched).length - ((jsSplitWs stitched).length - 10) :=
    List.length_drop _ _
  rcases hdisj with heq | ⟨⟨-, -, h3, h4⟩, -, -⟩
  · rw [heq]
    exact Nat.zero_le _
  · rw [hwin] at h3
    omega

/-- C4 fails on the code as stated: for `A = "a"` and `B = " b"` no
candidate overlap exists at all (so every candidate trivially scores
below the 0.8 threshold), yet `stitch([A, B])` is `"a  b"` — `B` is
appended truly unmodified, keeping its leading whitespace — while
`trim(A) + " " + trim(B)` is `"a b"`. -/
theorem C4_counterexample :
    (∀ c, validCandidate
        ((jsSplitWs (jsTrim "a")).drop ((jsSplitWs (jsTrim "a")).length - 10))
        (jsSplitWs " b") 5 20 c →
      candidateScore
        ((jsSplitWs (jsTrim "a")).drop ((jsSplitWs (jsTrim "a")).length - 10))
        (jsSplitWs " b") c < (0.8 : ℚ)) ∧
    improvedStitchTranscriptions ["a", " b"] = "a  b" ∧
    jsTrim "a" ++ " " ++ jsTrim " b" = "a b" ∧
    ("a  b" : String) ≠ "a b" := by
  refine ⟨?_, by decide, by decide, by decide⟩
  intro c hc
  exfalso
  have h1 : 5 ≤ c := hc.1
  have h3 := hc.2.2.1
  have hlen : ((jsSplitWs (jsTrim "a")).drop ((jsSplitWs (jsTrim "a")).length - 10)).length
      = 1 := by decide
  omega

/-- C4 as amended: when every candidate overlap between the trailing
window of `trim(A)` and the opening words of `B` scores below the 0.8
threshold, `stitch([A, B]) = trim(trim(A) + " " + B)` — `B` is appended
unmodified after a single space and only the ends of the concatenation
are trimmed (this coincides with `trim(A) + " " + trim(B)` exactly when
`B` has no leading whitespace). -/
theorem C4_no_overlap_unmodified (A B : String)
    (h : ∀ c, validCandidate
        ((jsSplitWs (jsTrim A)).drop ((jsSplitWs (jsTrim A)).length - 10))
        (jsSplitWs B) 5 20 c →
      candidateScore
        ((jsSplitWs (jsTrim A)).drop ((jsSplitWs (jsTrim A)).length - 10))
        (jsSplitWs B) c < (0.8 : ℚ)) :
    improvedStitchTranscriptions [A, B] = jsTrim (jsTrim A ++ " " ++ B) := by
  obtain ⟨-, hdisj⟩ :=
    findBestOverlap_spec ((jsSplitWs (jsTrim A)).drop ((jsSplitWs (jsTrim A)).length - 10))
      (jsSplitWs B) 5 20
  have hlt : (findBestOverlap
      ((jsSplitWs (jsTrim A)).drop ((jsSplitWs (jsTrim A)).length - 10))
      (jsSplitWs B) 5 20).2 < (0.8 : ℚ) := by
    rcases hdisj with heq | ⟨hv, hs, -⟩
    · rw [heq]
      exact (by decide : (0 : ℚ) < 0.8)
    · rw [← hs]
      exact h _ hv
  have hcond : ¬((findBestOverlap
      ((jsSplitWs (jsTrim A)).drop ((jsSplitWs (jsTrim A)).length - 10))
      (jsSplitWs B) 5 20).2 ≥ (0.8 : ℚ) ∧
      (findBestOverlap
        ((jsSplitWs (jsTrim A)).drop ((jsSplitWs (jsTrim A)).length - 10))
        (jsSplitWs B) 5 20).1 > 0) :=
    fun hcontra => absurd hcontra.1 (not_le.mpr hlt)
  show jsTrim (jsTrim A ++ " " ++
      (if (findBestOverlap
            ((jsSplitWs (jsTrim A)).drop ((jsSplitWs (jsTrim A)).length - 10))
            (jsSplitWs B) 5 20).2 ≥ (0.8 : ℚ) ∧
          (findBestOverlap
            ((jsSplitWs (jsTrim A)).drop ((jsSplitWs (jsTrim A)).length - 10))
            (jsSplitWs B) 5 20).1 > 0 then
        String.intercalate " " ((jsSplitWs B).drop (findBestOverlap
          ((jsSplitWs (jsTrim A)).drop ((jsSplitWs (jsTrim A)).length - 10))
          (jsSplitWs B) 5 20).1)
      else B)) = jsTrim (jsTrim A ++ " " ++ B)
  rw [if_neg hcond]

/-- Witness for C4 on the lexically unrelated pieces `"a"` and `"b"`:
no candidate overlap is valid at all, and the stitch is the trimmed
space-separated concatenation. -/
theorem C4_witness :
    (∀ c, validCandidate
        ((jsSplitWs (jsTrim "a")).drop ((jsSplitWs (jsTrim "a")).length - 10))
        (jsSplitWs "b") 5 20 c →
      candidateScore
        ((jsSplitWs (jsTrim "a")).drop ((jsSplitWs (jsTrim "a")).length - 10))
        (jsSplitWs "b") c < (0.8 : ℚ)) ∧
    improvedStitchTranscriptions ["a", "b"] = jsTrim (jsTrim "a" ++ " " ++ "b") := by
  have h : ∀ c, validCandidate
      ((jsSplitWs (jsTrim "a")).drop ((jsSplitWs (jsTrim "a")).length - 10))
      (jsSplitWs "b") 5 20 c →
      candidateScore
        ((jsSplitWs (jsTrim "a")).drop ((jsSplitWs (jsTrim "a")).length - 10))
        (jsSplitWs "b") c < (0.8 : ℚ) := by
    intro c hc
    exfalso
    have h1 : 5 ≤ c := hc.1
    have h3 := hc.2.2.1
    have hlen :
        ((jsSplitWs (jsTrim "a")).drop ((jsSplitWs (jsTrim "a")).length - 10)).length
          = 1 := by decide
    omega
  exact ⟨h, C4_no_overlap_unmodified "a" "b" h⟩

end Transcriber
